import Mathlib

/-!
Verification development for the BashAgent repository.

The file embeds, as executable Lean definitions, the parts of the program
the claims are about:

* `Server.*` — the file-editor half of the remote execution server
  (`src/server.rs`): `view`, `create`, `string_replace`, `insert`,
  `undo_edit`, the shared `write` helper, the per-path undo history, the
  path validation and the `to_status` error translation of the gRPC layer.
  File contents are strings; the filesystem and the `file_history` map are
  total functions from paths to optional values; `fs::write` is modelled as
  always succeeding.
* `Wire.*` — the provider adapters (`src/anthropic.rs`, `src/openai.rs`):
  the conversation serializers (`build_request_body`'s `messages` array and
  their helpers) over a small JSON value type, and the SSE stream decoders
  as folds over event lists.  JSON parsing (`serde_json::from_str`) is
  modelled as an abstract `parse : String → Option Json` parameter.
* `Agent.*` — the tool-call error triage of `call_tool` (`src/client.rs`).
-/

namespace Server

/-- gRPC status codes (`tonic::Code`), as far as the program distinguishes
them. -/
inductive Code where
  | ok
  | invalidArgument
  | notFound
  | alreadyExists
  | resourceExhausted
  | internal
  | unavailable
  | unknown
deriving DecidableEq, Repr

/-- `tonic::Status`: a code plus a message. -/
structure Status where
  code : Code
  message : String
deriving DecidableEq, Repr

/-- `to_status` (src/server.rs:200-202): every `anyhow::Error` coming out of
an editor handler is translated to `Status::unknown` carrying the error's
(debug-formatted) message. -/
def to_status (e : String) : Status := { code := Code.unknown, message := e }

/-- The `.map_err(to_status)` applied by every editor method of the
`ToolRunner` trait implementation (src/server.rs:215-233). -/
def rpcResult {α : Type} (r : Except String α) : Except Status α :=
  r.mapError to_status

/-- Rust `str::split("\n")` on the characters of the content: pieces between
newlines, empty pieces kept, one more piece than there are newlines. -/
def splitNl : List Char → List (List Char)
  | [] => [[]]
  | c :: rest =>
    if c = '\n' then [] :: splitNl rest
    else
      match splitNl rest with
      | [] => [[c]]
      | p :: ps => (c :: p) :: ps

/-- String-level wrapper of `splitNl`: `content.split("\n")` as a list of
strings. -/
def strSplitNl (s : String) : List String := (splitNl s.data).map String.mk

/-- `Snippet` (proto message): 1-based number of the first line plus the
lines. -/
structure Snippet where
  start : Nat
  lines : List String
deriving DecidableEq, Repr

/-- `Snippet::new` (src/server.rs:13-27): split the content on newlines; with
no range return everything starting at line 1; with a range `(start, end)`
pad `start` down by 4 (saturating) and return
`lines.take(end + 4).skip(start)` numbered from `1 + start`. -/
def Snippet.new (content : String) (range : Option (Nat × Nat)) : Snippet :=
  match range with
  | none => { start := 1, lines := strSplitNl content }
  | some (start, stop) =>
    let start := start - 4
    { start := 1 + start, lines := ((strSplitNl content).take (stop + 4)).drop start }

/-- `FileHistoryEntry` (src/server.rs:72-76): the contents most recently
written by the editor, and the stack of earlier contents (oldest first,
pushed/popped at the end). -/
structure FileHistoryEntry where
  latest : String
  history : List String
deriving DecidableEq, Repr

/-- The server state the editor operations touch: the target filesystem and
the in-memory `file_history` map (src/server.rs:78-80). -/
structure ServerState where
  fs : String → Option String
  file_history : String → Option FileHistoryEntry

/-- `write` (src/server.rs:82-92): write the content to disk, then either
push the previous `latest` onto the path's history or create a fresh entry
with an empty history. -/
def write (st : ServerState) (path content : String) : ServerState :=
  { fs := fun q => if q = path then some content else st.fs q
    file_history := fun q =>
      if q = path then
        some (match st.file_history path with
          | some e => { latest := content, history := e.history ++ [e.latest] }
          | none => { latest := content, history := [] })
      else st.file_history q }

/-- Rust `Path::is_absolute`: on Unix a path is absolute iff it starts with
`/`. -/
def is_absolute (path : String) : Bool :=
  match path.data with
  | '/' :: _ => true
  | _ => false

/-- `validate_path` (src/server.rs:94-101): bail unless the path is
absolute. -/
def validate_path (path : String) : Except String String :=
  if is_absolute path then Except.ok path else Except.error "The path must be absolute"

/-- `fs::read_to_string`, on the modelled filesystem. -/
def readFile (st : ServerState) (path : String) : Except String String :=
  match st.fs path with
  | some content => Except.ok content
  | none => Except.error "No such file or directory (os error 2)"

/-- `ViewRange` (proto): `start` and optional `end`. -/
structure ViewRange where
  start : Nat
  stop : Option Nat
deriving DecidableEq, Repr

/-- `ViewRequest` (proto). -/
structure ViewRequest where
  path : String
  view_range : Option ViewRange
deriving DecidableEq, Repr

/-- `view` (src/server.rs:103-116): read the file; with no range return the
whole file, else clamp `start` down by one and default `end` to the newline
count plus one. -/
def view (st : ServerState) (req : ViewRequest) : Except String Snippet × ServerState :=
  match validate_path req.path with
  | Except.error e => (Except.error e, st)
  | Except.ok path =>
    match readFile st path with
    | Except.error e => (Except.error e, st)
    | Except.ok content =>
      match req.view_range with
      | none => (Except.ok (Snippet.new content none), st)
      | some r =>
        let start := r.start - 1
        let stop := match r.stop with
          | some stop => stop
          | none => content.data.count '\n' + 1
        (Except.ok (Snippet.new content (some (start, stop))), st)

/-- `CreateRequest` (proto). -/
structure CreateRequest where
  path : String
  file_text : String
deriving DecidableEq, Repr

/-- `create` (src/server.rs:118-125): fail if the path exists, else `write`
the text. -/
def create (st : ServerState) (req : CreateRequest) : Except String Unit × ServerState :=
  match validate_path req.path with
  | Except.error e => (Except.error e, st)
  | Except.ok path =>
    if (st.fs path).isSome then (Except.error (path ++ " already exists"), st)
    else (Except.ok (), write st path req.file_text)

/-- Rust `<[_]>::starts_with` / pattern prefix test: `pat` begins `s`. -/
def leadsWith : List Char → List Char → Bool
  | [], _ => true
  | _ :: _, [] => false
  | p :: ps, c :: cs => p = c && leadsWith ps cs

/-- Rust `str::find(pat)` together with the split it induces: `some (pre,
post)` when `pat` first occurs right after `pre` (so `s = pre ++ post`,
`post` starts where the match ends after dropping the match itself from
`pre ++ pat ++ _`); precisely, `pre` is the text before the match and
`post` the text after it.  `none` when there is no occurrence.  An empty
pattern matches at the front, as in Rust. -/
def splitFirstOcc (pat : List Char) : List Char → Option (List Char × List Char)
  | [] => if leadsWith pat [] then some ([], []) else none
  | c :: cs =>
    if leadsWith pat (c :: cs) then some ([], (c :: cs).drop pat.length)
    else (splitFirstOcc pat cs).map (fun pr => (c :: pr.1, pr.2))

/-- `content.matches(pat).skip(1).next().is_some()` (src/server.rs:135): is
there a second (non-overlapping, left-to-right) occurrence of `pat`?  For
the empty pattern Rust's matcher advances one character per match, so a
second match exists iff something follows the first. -/
def hasSecondOcc (pat s : List Char) : Bool :=
  match splitFirstOcc pat s with
  | none => false
  | some (_, post) => if pat = [] then !post.isEmpty else (splitFirstOcc pat post).isSome

/-- Rust `str::matches(pat).count()`: the number of non-overlapping
left-to-right occurrences of `pat`; the empty pattern matches at every
character boundary. -/
def countOccs (pat : List Char) : List Char → Nat
  | [] => if pat = [] then 1 else 0
  | c :: cs =>
    if h : pat = [] then 1 + countOccs pat cs
    else if leadsWith pat (c :: cs) then 1 + countOccs pat ((c :: cs).drop pat.length)
    else countOccs pat cs
termination_by s => s.length
decreasing_by
  all_goals simp only [List.length_drop, List.length_cons]
  all_goals try omega
  all_goals
    have hp : pat.length ≥ 1 := by
      cases pat with
      | nil => exact absurd rfl h
      | cons a as => simp
  all_goals omega

/-- `StringReplaceRequest` (proto). -/
structure StringReplaceRequest where
  path : String
  to_replace : String
  replacement : Option String
deriving DecidableEq, Repr

/-- `string_replace` (src/server.rs:127-148): find the first occurrence of
`to_replace` (error if none), error if a second occurrence exists, replace
the unique occurrence by `replacement` (default empty), build a snippet
around the replaced span, and `write` the new content. -/
def string_replace (st : ServerState) (req : StringReplaceRequest) :
    Except String Snippet × ServerState :=
  match validate_path req.path with
  | Except.error e => (Except.error e, st)
  | Except.ok path =>
    match readFile st path with
    | Except.error e => (Except.error e, st)
    | Except.ok content =>
      match splitFirstOcc req.to_replace.data content.data with
      | none => (Except.error "No match found to `to_replace` for replacement", st)
      | some (pre, post) =>
        if hasSecondOcc req.to_replace.data content.data then
          (Except.error "Multiple matches found to `to_replace`, a unique match is necessary", st)
        else
          let replacement := (req.replacement.getD "").data
          let content' := String.mk (pre ++ replacement ++ post)
          let start := pre.count '\n'
          let stop := start + replacement.count '\n'
          let snippet := Snippet.new content' (some (start, stop + 1))
          (Except.ok snippet, write st path content')

/-- The newline iterator of `insert` (src/server.rs:154-162): skip `k`
newlines (`none` when the content has fewer than `k`, the
`advance_by`-failed case), then split the content at the next newline — or
at the end of the content when no further newline exists (`next()` returned
`None`).  Returns the text before the insertion index and the text from the
index on. -/
def findInsertSplit : Nat → List Char → Option (List Char × List Char)
  | 0, [] => some ([], [])
  | _ + 1, [] => none
  | 0, c :: cs =>
    if c = '\n' then some ([], c :: cs)
    else (findInsertSplit 0 cs).map (fun pr => (c :: pr.1, pr.2))
  | k + 1, c :: cs =>
    if c = '\n' then (findInsertSplit k cs).map (fun pr => (c :: pr.1, pr.2))
    else (findInsertSplit (k + 1) cs).map (fun pr => (c :: pr.1, pr.2))

/-- `InsertRequest` (proto). -/
structure InsertRequest where
  path : String
  line_number : Nat
  line : String
deriving DecidableEq, Repr

/-- Rust `String::len()`: the length in UTF-8 bytes. -/
def utf8Len (s : List Char) : Nat := (s.map Char.utf8Size).sum

/-- Splitting a string at a byte offset, as Rust's byte-indexed string
operations do: `none` when the offset is past the end or does not lie on a
character boundary — the cases where `String::insert_str` panics. -/
def byteSplit : Nat → List Char → Option (List Char × List Char)
  | b, [] => if b = 0 then some ([], []) else none
  | b, c :: cs =>
    if b = 0 then some ([], c :: cs)
    else if b < c.utf8Size then none
    else (byteSplit (b - c.utf8Size) cs).map (fun pr => (c :: pr.1, pr.2))

/-- The index the source hands to `String::insert_str`: the char ordinal of
the newline produced by `chars().enumerate()`, or the byte length
`content.len()` when the iterator is exhausted. -/
def insertIndex (content pre post : List Char) : Nat :=
  match post with
  | [] => utf8Len content
  | _ :: _ => pre.length

/-- `insert` (src/server.rs:150-171): with `l = line_number.saturating_sub(1)`,
advance an iterator over newline positions by `l` (error when the file has
fewer than `l` newlines).  The next newline position taken from
`chars().enumerate()` is a **char ordinal**, yet `String::insert_str` uses
it as a **byte index** (when no newline is left the index is the byte
length `content.len()`), so `"\n" + line` lands at the byte offset equal to
that ordinal; with multi-byte characters before the newline that offset is
earlier in the string, and when it is not a character boundary the program
panics — modelled as an error result with nothing written (the panic aborts
the handler before any write). -/
def insert (st : ServerState) (req : InsertRequest) : Except String Snippet × ServerState :=
  match validate_path req.path with
  | Except.error e => (Except.error e, st)
  | Except.ok path =>
    match readFile st path with
    | Except.error e => (Except.error e, st)
    | Except.ok content =>
      let l := req.line_number - 1
      match findInsertSplit l content.data with
      | none =>
        (Except.error ("There are only " ++ toString (content.data.count '\n' + 1) ++
          " lines in " ++ path), st)
      | some (pre, post) =>
        match byteSplit (insertIndex content.data pre post) content.data with
        | none => (Except.error "panicked at byte index not on a char boundary", st)
        | some (bpre, bpost) =>
          let line := '\n' :: req.line.data
          let content' := String.mk (bpre ++ line ++ bpost)
          let stop := l + line.count '\n'
          let snippet := Snippet.new content' (some (l, stop + 1))
          (Except.ok snippet, write st path content')

/-- `UndoEditRequest` (proto). -/
structure UndoEditRequest where
  path : String
deriving DecidableEq, Repr

/-- `undo_edit` (src/server.rs:173-189): error when the path has no history
entry; pop the most recent saved contents (error "Already at oldest change"
when the stack is empty), write them to disk and make them `latest`.
Filesystem writes always succeed in this model, so the pop-restore rescue
branch of the source is never taken. -/
def undo_edit (st : ServerState) (req : UndoEditRequest) : Except String Snippet × ServerState :=
  match validate_path req.path with
  | Except.error e => (Except.error e, st)
  | Except.ok path =>
    match st.file_history path with
    | none => (Except.error ("No history found for " ++ path), st)
    | some e =>
      match e.history.getLast? with
      | none => (Except.error "Already at oldest change", st)
      | some new_latest =>
        let st' : ServerState :=
          { fs := fun q => if q = path then some new_latest else st.fs q
            file_history := fun q =>
              if q = path then some { latest := new_latest, history := e.history.dropLast }
              else st.file_history q }
        (Except.ok (Snippet.new new_latest none), st')

/-- Calling `undo_edit` on a path `n` times in a row, keeping only the
state. -/
def iterUndo (p : String) : Nat → ServerState → ServerState
  | 0, st => st
  | n + 1, st => iterUndo p n (undo_edit st { path := p }).2

end Server

namespace Wire

/-- A `serde_json::Value`.  Numbers are modelled as integers; the claims
never inspect numeric payloads. -/
inductive Json where
  | null
  | bool (b : Bool)
  | num (n : Int)
  | str (s : String)
  | arr (elems : List Json)
  | obj (fields : List (String × Json))

/-- Structural equality of `Json`, written out because `deriving
DecidableEq` does not handle the nested lists. -/
def Json.beq : Json → Json → Bool
  | .null, .null => true
  | .bool a, .bool b => a = b
  | .num a, .num b => a = b
  | .str a, .str b => a = b
  | .arr xs, .arr ys => beqList xs ys
  | .obj xs, .obj ys => beqFields xs ys
  | _, _ => false
where
  beqList : List Json → List Json → Bool
    | [], [] => true
    | x :: xs, y :: ys => x.beq y && beqList xs ys
    | _, _ => false
  beqFields : List (String × Json) → List (String × Json) → Bool
    | [], [] => true
    | (k, x) :: xs, (k', y) :: ys => k = k' && x.beq y && beqFields xs ys
    | _, _ => false

/-- Field lookup on a JSON object; `none` on other values or missing keys. -/
def Json.field (key : String) : Json → Option Json
  | .obj fields => fields.lookup key
  | _ => none

/-- `serde_json::Value::to_string()`: compact serialization.  Only the
escapes the claims could meet are handled. -/
def Json.toStr : Json → String
  | .null => "null"
  | .bool true => "true"
  | .bool false => "false"
  | .num n => toString n
  | .str s => "\"" ++ s ++ "\""
  | .arr xs => "[" ++ String.intercalate "," (toStrList xs) ++ "]"
  | .obj fields => "\x7b" ++ String.intercalate "," (toStrFields fields) ++ "\x7d"
where
  toStrList : List Json → List String
    | [] => []
    | x :: xs => x.toStr :: toStrList xs
  toStrFields : List (String × Json) → List String
    | [] => []
    | (k, v) :: fs => ("\"" ++ k ++ "\":" ++ v.toStr) :: toStrFields fs

/-- `ToolUse` (src/common.rs:22-29): name and id from the provider, the
JSON input, and the output `(text, is_error)` filled after the tool ran
(`input` defaults to JSON null, `output` to absent). -/
structure ToolUse where
  name : String
  id : String
  input : Json := Json.null
  output : Option (String × Bool) := none

/-- `Exchange` (src/common.rs:31-35): one prompt plus one `(message,
tool_uses)` pair per model turn. -/
structure Exchange where
  prompt : String
  response : List (String × List ToolUse)

/-- A `{role, content}` message with a plain string content. -/
def roleMsg (role content : String) : Json :=
  .obj [("role", .str role), ("content", .str content)]

/-- Anthropic `serialize_assistant_response` (src/anthropic.rs:8-23): a text
block when the message is nonempty, then one `tool_use` block per tool
use. -/
def anthSerializeAssistantResponse (message : String) (tool_uses : List ToolUse) : Json :=
  .obj [("role", .str "assistant"), ("content", .arr (
    (if message = "" then [] else [.obj [("type", .str "text"), ("text", .str message)]]) ++
    tool_uses.map (fun tu => .obj [("type", .str "tool_use"), ("id", .str tu.id),
      ("name", .str tu.name), ("input", tu.input)])))]

/-- Anthropic `serialize_tool_results` (src/anthropic.rs:25-39): a user-role
message holding one `tool_result` per tool use; an absent output serializes
as the literal "Operation cancelled by user" with `is_error = true`. -/
def anthSerializeToolResults (tool_uses : List ToolUse) : Json :=
  .obj [("role", .str "user"), ("content", .arr (tool_uses.map (fun tu =>
    .obj [("type", .str "tool_result"), ("tool_use_id", .str tu.id),
      ("content", .str ((tu.output.map Prod.fst).getD "Operation cancelled by user")),
      ("is_error", .bool ((tu.output.map Prod.snd).getD true))])))]

/-- The messages contributed by one turn of an exchange in the Anthropic
request body: the assistant message, then the tool results unless the turn
has no tool uses (src/anthropic.rs:56-61). -/
def anthTurnMessages (turn : String × List ToolUse) : List Json :=
  [anthSerializeAssistantResponse turn.1 turn.2] ++
    (if turn.2.isEmpty then [] else [anthSerializeToolResults turn.2])

/-- The messages contributed by one exchange: the user prompt then the
turns. -/
def anthExchangeMessages (ex : Exchange) : List Json :=
  roleMsg "user" ex.prompt :: (ex.response.map anthTurnMessages).flatten

/-- The `messages` array of Anthropic `build_request_body`
(src/anthropic.rs:52-62): every prior exchange and the current one, in
order. -/
def anthMessages (exchanges : List Exchange) (current : Exchange) : List Json :=
  ((exchanges ++ [current]).map anthExchangeMessages).flatten

/-- OpenAI `serialize_assistant_response` (src/openai.rs:7-19): role and
content always; a `tool_calls` array only when there are tool uses, each
call carrying the JSON input re-serialized to a string. -/
def oaiSerializeAssistantResponse (message : String) (tool_uses : List ToolUse) : Json :=
  .obj ([("role", .str "assistant"), ("content", .str message)] ++
    (if tool_uses.isEmpty then [] else [("tool_calls", .arr (tool_uses.map (fun tu =>
      .obj [("type", .str "function"), ("id", .str tu.id),
        ("function", .obj [("name", .str tu.name), ("arguments", .str tu.input.toStr)])])))]))

/-- OpenAI `serialize_tool_result` (src/openai.rs:21-28): a tool-role
message with the tool call id and the output text; an absent output
serializes as the literal "Operation cancelled by user".  The message has
no error field. -/
def oaiSerializeToolResult (tu : ToolUse) : Json :=
  .obj [("role", .str "tool"), ("tool_call_id", .str tu.id),
    ("content", .str ((tu.output.map Prod.fst).getD "Operation cancelled by user"))]

/-- The messages contributed by one turn in the OpenAI request body: the
assistant message, then one tool message per tool use
(src/openai.rs:50-55). -/
def oaiTurnMessages (turn : String × List ToolUse) : List Json :=
  oaiSerializeAssistantResponse turn.1 turn.2 :: turn.2.map oaiSerializeToolResult

/-- The messages contributed by one exchange in the OpenAI request body. -/
def oaiExchangeMessages (ex : Exchange) : List Json :=
  roleMsg "user" ex.prompt :: (ex.response.map oaiTurnMessages).flatten

/-- The contents of `src/resources/system-prompt.txt`; the file is not part
of the sources given, and no claim depends on its text. -/
def systemPrompt : String := "SYSTEM PROMPT"

/-- The `messages` array of OpenAI `build_request_body`
(src/openai.rs:45-56): the system prompt first, then every exchange. -/
def oaiMessages (exchanges : List Exchange) (current : Exchange) : List Json :=
  roleMsg "system" systemPrompt :: ((exchanges ++ [current]).map oaiExchangeMessages).flatten

/-- A fresh `ToolUse` as produced by `parse_tool_use_content_block_start`
(src/anthropic.rs:99-103) and `parse_tool_call` (src/openai.rs:91-95):
name and id set, the rest defaulted. -/
def newToolUse (name id : String) : ToolUse := { name := name, id := id }

/-- The shapes of Anthropic SSE events `stream_response_message` and
`stream_tool_use` distinguish (src/anthropic.rs:105-148). -/
inductive AnthEvent where
  /-- An `error` event with its message. -/
  | errorEv (message : String)
  /-- `content_block_start` whose block is a `tool_use` with name and id. -/
  | blockStartToolUse (name id : String)
  /-- `content_block_start` of a non-tool (text) block. -/
  | blockStartText
  /-- `content_block_delta` carrying `delta.text`. -/
  | deltaText (tokens : String)
  /-- `content_block_delta` carrying `delta.partial_json`. -/
  | deltaPartialJson (fragment : String)
  /-- `content_block_stop`. -/
  | blockStop
  /-- Any other event (`message_delta`, `message_stop`, ...). -/
  | otherEv

/-- Phase A of Anthropic `stream_response` (src/anthropic.rs:157-163,
105-126): accumulate text tokens until a `tool_use` block starts (returning
it plus the remaining events) or the stream ends.  A `partial_json` delta
in this phase errors because `delta.text` is missing. -/
def anthPhaseA : List AnthEvent → String →
    Except String (String × Option (ToolUse × List AnthEvent))
  | [], message => Except.ok (message, none)
  | ev :: evs, message =>
    match ev with
    | .errorEv m => Except.error m
    | .blockStartToolUse name id => Except.ok (message, some (newToolUse name id, evs))
    | .deltaText tokens => anthPhaseA evs (message ++ tokens)
    | .deltaPartialJson _ => Except.error "Tokens not found in content block."
    | .blockStartText => anthPhaseA evs message
    | .blockStop => anthPhaseA evs message
    | .otherEv => anthPhaseA evs message

/-- Phase B of Anthropic `stream_response` (src/anthropic.rs:128-148,
165-171): concatenate `partial_json` fragments into a buffer; on
`content_block_stop` parse the buffer into the last tool use's input; a new
`content_block_start` clears the buffer and opens another tool use.  `parse`
stands for `serde_json::from_str`. -/
def anthPhaseB (parse : String → Option Json) :
    List AnthEvent → String → ToolUse → List ToolUse → Except String (List ToolUse)
  | [], _, prev, acc => Except.ok (acc ++ [prev])
  | ev :: evs, buf, prev, acc =>
    match ev with
    | .errorEv m => Except.error m
    | .blockStartToolUse name id => anthPhaseB parse evs "" (newToolUse name id) (acc ++ [prev])
    | .blockStartText => Except.error "Tool name not found."
    | .deltaPartialJson fragment => anthPhaseB parse evs (buf ++ fragment) prev acc
    | .deltaText _ => Except.error "Tool input not found."
    | .blockStop =>
      match parse buf with
      | some v => anthPhaseB parse evs buf { prev with input := v } acc
      | none => Except.error "Tool input not valid JSON."
    | .otherEv => anthPhaseB parse evs buf prev acc

/-- Anthropic `stream_response` (src/anthropic.rs:151-174): phase A, then
phase B when a tool-use block was opened. -/
def anthStreamResponse (parse : String → Option Json) (events : List AnthEvent) :
    Except String (String × List ToolUse) := do
  let (message, rest) ← anthPhaseA events ""
  match rest with
  | none => return (message, [])
  | some (tu, evs) => return (message, ← anthPhaseB parse evs "" tu [])

/-- The shapes of OpenAI stream chunks `stream_response_message` and
`stream_tool_call` distinguish (src/openai.rs:97-141). -/
inductive OaiEvent where
  /-- The `[DONE]` sentinel data line. -/
  | done
  /-- An `error` event with its message. -/
  | errorEv (message : String)
  /-- A `delta.content` text token. -/
  | text (tokens : String)
  /-- A `delta.tool_calls[0]` that identifies a new call (has id and
  `function.name`). -/
  | toolCallNew (name id : String)
  /-- A `delta.tool_calls[0]` fragment carrying only
  `function.arguments`. -/
  | toolCallFrag (fragment : String)
  /-- A `delta.tool_calls[0]` with neither id/name nor arguments. -/
  | toolCallBad
  /-- A chunk with neither content nor tool calls. -/
  | otherEv

/-- Phase A of OpenAI `stream_response` (src/openai.rs:176-182, 97-117):
accumulate text tokens until the first identifying tool call appears.  Any
`tool_calls[0]` record here goes through `parse_tool_call`, which fails on
fragments lacking a name. -/
def oaiPhaseA : List OaiEvent → String →
    Except String (String × Option (ToolUse × List OaiEvent))
  | [], message => Except.ok (message, none)
  | ev :: evs, message =>
    match ev with
    | .done => oaiPhaseA evs message
    | .errorEv m => Except.error m
    | .text tokens => oaiPhaseA evs (message ++ tokens)
    | .toolCallNew name id => Except.ok (message, some (newToolUse name id, evs))
    | .toolCallFrag _ => Except.error "Tool name not found."
    | .toolCallBad => Except.error "Tool name not found."
    | .otherEv => oaiPhaseA evs message

/-- OpenAI `stream_tool_calls` (src/openai.rs:143-168, 119-141): append
argument fragments to the buffer; a new identifying tool call finalizes the
previous one by parsing the buffer; the stream end finalizes the last. -/
def oaiStreamToolCalls (parse : String → Option Json) :
    List OaiEvent → ToolUse → String → List ToolUse → Except String (List ToolUse)
  | [], prev, buf, acc =>
    match parse buf with
    | some v => Except.ok (acc ++ [{ prev with input := v }])
    | none => Except.error "Tool input not valid JSON."
  | ev :: evs, prev, buf, acc =>
    match ev with
    | .done => oaiStreamToolCalls parse evs prev buf acc
    | .errorEv m => Except.error m
    | .text _ => oaiStreamToolCalls parse evs prev buf acc
    | .otherEv => oaiStreamToolCalls parse evs prev buf acc
    | .toolCallFrag fragment => oaiStreamToolCalls parse evs prev (buf ++ fragment) acc
    | .toolCallNew name id =>
      match parse buf with
      | some v =>
        oaiStreamToolCalls parse evs (newToolUse name id) "" (acc ++ [{ prev with input := v }])
      | none => Except.error "Tool input not valid JSON."
    | .toolCallBad => Except.error "Tool call arguments not found"

/-- OpenAI `stream_response` (src/openai.rs:171-185). -/
def oaiStreamResponse (parse : String → Option Json) (events : List OaiEvent) :
    Except String (String × List ToolUse) := do
  let (message, rest) ← oaiPhaseA events ""
  match rest with
  | none => return (message, [])
  | some (tu, evs) => return (message, ← oaiStreamToolCalls parse evs tu "" [])

end Wire

namespace Agent

/-- The error alternatives `call_tool` distinguishes when it downcasts the
`anyhow::Error` (src/client.rs:132-142): a gRPC `tonic::Status` reply, a
`tonic::transport::Error`, or any other client-side error. -/
inductive CallError where
  /-- The RPC replied with a failing `tonic::Status`. -/
  | rpcStatus (code : Server.Code) (message : String)
  /-- The RPC transport failed. -/
  | transport (message : String)
  /-- A client-side error (input validation, connection setup, ...). -/
  | clientMsg (message : String)
deriving DecidableEq, Repr

/-- The triage at the end of `call_tool` (src/client.rs:132-142): a status
coded `Unknown` becomes a tool-use result `(message, is_error = true)` shown
to the model; any other status escalates; a transport error escalates; other
client errors become tool-use results. -/
def call_tool_triage : Except CallError String → Except CallError (String × Bool)
  | Except.ok output => Except.ok (output, false)
  | Except.error (CallError.rpcStatus c m) =>
    if c = Server.Code.unknown then Except.ok (m, true)
    else Except.error (CallError.rpcStatus c m)
  | Except.error (CallError.transport m) => Except.error (CallError.transport m)
  | Except.error (CallError.clientMsg m) => Except.ok (m, true)

end Agent

section Theorems

/-- C9: after `Create("/tmp/a.txt", "one\ntwo\nthree\n")` succeeds on a fresh
path, `View("/tmp/a.txt", None)` returns `Snippet{start: 1, lines: ["one",
"two", "three", ""]}` — the whole file split on newlines, including the
final empty line from the trailing newline, numbered from 1. -/
theorem C9_create_then_view :
    (Server.create ⟨fun _ => none, fun _ => none⟩
      ⟨"/tmp/a.txt", "one\ntwo\nthree\n"⟩).1 = Except.ok () ∧
    (Server.view (Server.create ⟨fun _ => none, fun _ => none⟩
        ⟨"/tmp/a.txt", "one\ntwo\nthree\n"⟩).2 ⟨"/tmp/a.txt", none⟩).1 =
      Except.ok ⟨1, ["one", "two", "three", ""]⟩ := by
  constructor <;> rfl

/-- C8: `call_tool`'s triage returns a status coded `Unknown` as a tool-use
result `(status message, is_error = true)` fed back to the model, while a
reply with any other status code, and any transport failure, is escalated
as an error. -/
theorem C8_unknown_triage :
    (∀ m, Agent.call_tool_triage (Except.error (Agent.CallError.rpcStatus Server.Code.unknown m)) =
      Except.ok (m, true)) ∧
    (∀ c m, c ≠ Server.Code.unknown →
      Agent.call_tool_triage (Except.error (Agent.CallError.rpcStatus c m)) =
        Except.error (Agent.CallError.rpcStatus c m)) ∧
    (∀ m, Agent.call_tool_triage (Except.error (Agent.CallError.transport m)) =
      Except.error (Agent.CallError.transport m)) := by
  refine ⟨fun m => ?_, fun c m hc => ?_, fun m => ?_⟩ <;>
    simp [Agent.call_tool_triage, *]

/-- Witness for C8: a status coded `Internal` escalates. -/
theorem C8_unknown_triage_witness :
    Agent.call_tool_triage (Except.error (Agent.CallError.rpcStatus Server.Code.internal "boom")) =
      Except.error (Agent.CallError.rpcStatus Server.Code.internal "boom") :=
  C8_unknown_triage.2.1 Server.Code.internal "boom" (by decide)

/-- C4 counterexample: an editor RPC on the relative path "a.txt" returns a
status whose code is `Unknown`, not `InvalidArgument` as the claim states
(the server's `to_status` codes every editor error `Unknown`). -/
theorem C4_counterexample :
    Server.rpcResult (Server.view ⟨fun _ => some "data", fun _ => none⟩ ⟨"a.txt", none⟩).1 =
      Except.error ⟨Server.Code.unknown, "The path must be absolute"⟩ ∧
    Server.Code.unknown ≠ Server.Code.invalidArgument := by
  exact ⟨rfl, by decide⟩

/-- C4 amended: every editor RPC called with a non-absolute path returns the
`Unknown`-coded status "The path must be absolute" and performs no
filesystem access — for every filesystem state the result is this same
fixed error and the state is returned unchanged. -/
theorem C4_relative_path_amended (st : Server.ServerState) (p : String)
    (h : Server.is_absolute p = false) :
    (∀ vr, Server.rpcResult (Server.view st ⟨p, vr⟩).1 =
        Except.error ⟨Server.Code.unknown, "The path must be absolute"⟩ ∧
      (Server.view st ⟨p, vr⟩).2 = st) ∧
    (∀ text, Server.rpcResult (Server.create st ⟨p, text⟩).1 =
        Except.error ⟨Server.Code.unknown, "The path must be absolute"⟩ ∧
      (Server.create st ⟨p, text⟩).2 = st) ∧
    (∀ old new, Server.rpcResult (Server.string_replace st ⟨p, old, new⟩).1 =
        Except.error ⟨Server.Code.unknown, "The path must be absolute"⟩ ∧
      (Server.string_replace st ⟨p, old, new⟩).2 = st) ∧
    (∀ n line, Server.rpcResult (Server.insert st ⟨p, n, line⟩).1 =
        Except.error ⟨Server.Code.unknown, "The path must be absolute"⟩ ∧
      (Server.insert st ⟨p, n, line⟩).2 = st) ∧
    (Server.rpcResult (Server.undo_edit st ⟨p⟩).1 =
        Except.error ⟨Server.Code.unknown, "The path must be absolute"⟩ ∧
      (Server.undo_edit st ⟨p⟩).2 = st) := by
  refine ⟨fun vr => ?_, fun text => ?_, fun old new => ?_, fun n line => ?_, ?_⟩ <;>
    simp [Server.view, Server.create, Server.string_replace, Server.insert, Server.undo_edit,
      Server.validate_path, h, Server.rpcResult, Server.to_status, Except.mapError]

/-- Witness for C4: the relative path "a.txt" on a concrete state. -/
theorem C4_relative_path_amended_witness :
    Server.rpcResult
        (Server.undo_edit ⟨fun _ => some "data", fun _ => none⟩ ⟨"a.txt"⟩).1 =
      Except.error ⟨Server.Code.unknown, "The path must be absolute"⟩ :=
  (C4_relative_path_amended ⟨fun _ => some "data", fun _ => none⟩ "a.txt" (by decide)).2.2.2.2.1

/-- C5 counterexample: for a ToolUse with absent output the OpenAI request
builder's tool-result message has no error flag at all — the claim that
both providers emit `is_error = true` is false for OpenAI. -/
theorem C5_counterexample :
    (⟨"bash", "call_1", Wire.Json.null, none⟩ : Wire.ToolUse).output = none ∧
    (Wire.oaiSerializeToolResult ⟨"bash", "call_1", Wire.Json.null, none⟩).field "is_error" =
      none ∧
    (Wire.oaiSerializeToolResult ⟨"bash", "call_1", Wire.Json.null, none⟩).field "content" =
      some (Wire.Json.str "Operation cancelled by user") := by
  refine ⟨rfl, rfl, rfl⟩

/-- C5 amended: for every ToolUse whose output is absent at serialization
time, Anthropic's builder emits a `tool_result` paired to its id with
content "Operation cancelled by user" and `is_error = true`, while OpenAI's
builder emits a `role:"tool"` message paired to its id with the same
literal content but no error flag (the OpenAI tool message carries no
`is_error` field). -/
theorem C5_cancelled_tool_results (tus : List Wire.ToolUse) (i : Nat) (h : i < tus.length)
    (hout : (tus.get ⟨i, h⟩).output = none) :
    (∃ elems, (Wire.anthSerializeToolResults tus).field "content" =
        some (Wire.Json.arr elems) ∧ elems.length = tus.length ∧
      elems[i]? = some (Wire.Json.obj
        [("type", Wire.Json.str "tool_result"),
         ("tool_use_id", Wire.Json.str (tus.get ⟨i, h⟩).id),
         ("content", Wire.Json.str "Operation cancelled by user"),
         ("is_error", Wire.Json.bool true)])) ∧
    Wire.oaiSerializeToolResult (tus.get ⟨i, h⟩) =
      Wire.Json.obj [("role", Wire.Json.str "tool"),
        ("tool_call_id", Wire.Json.str (tus.get ⟨i, h⟩).id),
        ("content", Wire.Json.str "Operation cancelled by user")] := by
  have hout' : tus[i].output = none := by simpa [List.get_eq_getElem] using hout
  constructor
  · refine ⟨_, rfl, by simp, ?_⟩
    simp [List.getElem?_map, List.getElem?_eq_getElem h, List.get_eq_getElem, hout']
  · simp [Wire.oaiSerializeToolResult, List.get_eq_getElem, hout']

/-- Witness for C5: a single cancelled tool use. -/
theorem C5_cancelled_tool_results_witness :
    Wire.oaiSerializeToolResult ((([⟨"bash", "id9", Wire.Json.null, none⟩] :
        List Wire.ToolUse)).get ⟨0, by decide⟩) =
      Wire.Json.obj [("role", Wire.Json.str "tool"), ("tool_call_id", Wire.Json.str "id9"),
        ("content", Wire.Json.str "Operation cancelled by user")] :=
  (C5_cancelled_tool_results [⟨"bash", "id9", Wire.Json.null, none⟩] 0 (by decide) rfl).2

/-- C6 counterexample: an assistant turn with empty message and empty
tool_uses IS serialized — both builders contribute an assistant message
with empty content for it, instead of eliding it as the claim states. -/
theorem C6_counterexample :
    Wire.anthMessages [] ⟨"hi", [("", [])]⟩ =
      [Wire.roleMsg "user" "hi",
       Wire.Json.obj [("role", Wire.Json.str "assistant"), ("content", Wire.Json.arr [])]] ∧
    Wire.oaiMessages [] ⟨"hi", [("", [])]⟩ =
      [Wire.roleMsg "system" Wire.systemPrompt, Wire.roleMsg "user" "hi",
       Wire.Json.obj [("role", Wire.Json.str "assistant"), ("content", Wire.Json.str "")]] := by
  constructor <;> rfl

/-- C6 amended: an assistant turn with empty message and empty tool_uses
contributes exactly one assistant message with empty content (an empty
content array for Anthropic; an empty string content and no tool_calls
field for OpenAI), and no tool-result message follows it. -/
theorem C6_empty_turn_serialized (exchanges : List Wire.Exchange) (prompt : String)
    (turns : List (String × List Wire.ToolUse)) :
    Wire.anthMessages exchanges ⟨prompt, turns ++ [("", [])]⟩ =
      Wire.anthMessages exchanges ⟨prompt, turns⟩ ++
        [Wire.Json.obj [("role", Wire.Json.str "assistant"), ("content", Wire.Json.arr [])]] ∧
    Wire.oaiMessages exchanges ⟨prompt, turns ++ [("", [])]⟩ =
      Wire.oaiMessages exchanges ⟨prompt, turns⟩ ++
        [Wire.Json.obj [("role", Wire.Json.str "assistant"), ("content", Wire.Json.str "")]] := by
  constructor <;>
    simp [Wire.anthMessages, Wire.oaiMessages, Wire.anthExchangeMessages,
      Wire.oaiExchangeMessages, Wire.anthTurnMessages, Wire.oaiTurnMessages,
      Wire.anthSerializeAssistantResponse, Wire.oaiSerializeAssistantResponse]

namespace Server

/-- `leadsWith pat []` holds only for the empty pattern. -/
theorem leadsWith_nil (pat : List Char) : leadsWith pat [] = true ↔ pat = [] := by
  cases pat <;> simp [leadsWith]

/-- The empty pattern matches at every character boundary: Rust's
`matches("")` yields one more match than there are characters. -/
theorem countOccs_nil_pat (s : List Char) : countOccs [] s = s.length + 1 := by
  induction s with
  | nil => simp [countOccs]
  | cons c cs ih => simp [countOccs, ih]; omega

/-- A pattern occurs zero times iff `find` reports no occurrence. -/
theorem countOccs_eq_zero_iff (pat s : List Char) :
    countOccs pat s = 0 ↔ splitFirstOcc pat s = none := by
  induction s with
  | nil =>
    cases pat <;> simp [countOccs, splitFirstOcc, leadsWith]
  | cons c cs ih =>
    by_cases hp : pat = []
    · subst hp
      simp [countOccs, splitFirstOcc, leadsWith]
    · by_cases hl : leadsWith pat (c :: cs)
      · simp [countOccs, splitFirstOcc, hp, hl]
      · simp [countOccs, splitFirstOcc, hp, hl, ih]

/-- After the first occurrence of a nonempty pattern, the total count is one
plus the count in the remainder. -/
theorem countOccs_of_first (pat : List Char) (hp : pat ≠ []) :
    ∀ s a b, splitFirstOcc pat s = some (a, b) → countOccs pat s = 1 + countOccs pat b := by
  intro s
  induction s with
  | nil =>
    intro a b hs
    have : leadsWith pat [] = false := by
      cases pat with
      | nil => exact absurd rfl hp
      | cons x xs => simp [leadsWith]
    simp [splitFirstOcc, this] at hs
  | cons c cs ih =>
    intro a b hs
    by_cases hl : leadsWith pat (c :: cs)
    · simp [splitFirstOcc, hl] at hs
      simp [countOccs, hp, hl, hs.2]
    · simp [splitFirstOcc, hl] at hs
      obtain ⟨pr, hpr, hb⟩ := hs
      simp [countOccs, hp, hl]
      exact ih pr b hpr

/-- At least two occurrences means: a first occurrence exists and
`hasSecondOcc` (the source's `matches(..).skip(1).next().is_some()`)
holds. -/
theorem two_occs_hasSecond (pat s : List Char) (h2 : 2 ≤ countOccs pat s) :
    ∃ a b, splitFirstOcc pat s = some (a, b) ∧ hasSecondOcc pat s = true := by
  by_cases hp : pat = []
  · subst hp
    have hs : s ≠ [] := by
      intro h
      subst h
      simp [countOccs] at h2
    obtain ⟨c, cs, rfl⟩ := List.exists_cons_of_ne_nil hs
    refine ⟨[], c :: cs, ?_, ?_⟩
    · simp [splitFirstOcc, leadsWith]
    · simp [hasSecondOcc, splitFirstOcc, leadsWith]
  · have h0 : countOccs pat s ≠ 0 := by omega
    have hsome : splitFirstOcc pat s ≠ none := fun h =>
      h0 ((countOccs_eq_zero_iff pat s).2 h)
    obtain ⟨⟨a, b⟩, hab⟩ := Option.ne_none_iff_exists'.1 hsome
    refine ⟨a, b, hab, ?_⟩
    have hcount := countOccs_of_first pat hp s a b hab
    have hb : countOccs pat b ≠ 0 := by omega
    have : splitFirstOcc pat b ≠ none := fun h =>
      hb ((countOccs_eq_zero_iff pat b).2 h)
    simp [hasSecondOcc, hab, hp, Option.isSome_iff_ne_none, this]

end Server

section ClaimC2

/-- C2 counterexample: with the file `"x\nx\n"` (two occurrences of "x"),
`StringReplace` fails with a status coded `Unknown`, not `InvalidArgument`
as the claim states; the file is unchanged. -/
theorem C2_counterexample :
    Server.rpcResult (Server.string_replace
        ⟨fun p => if p = "/f" then some "x\nx\n" else none, fun _ => none⟩
        ⟨"/f", "x", some "y"⟩).1 =
      Except.error ⟨Server.Code.unknown,
        "Multiple matches found to `to_replace`, a unique match is necessary"⟩ ∧
    Server.Code.unknown ≠ Server.Code.invalidArgument ∧
    (Server.string_replace
        ⟨fun p => if p = "/f" then some "x\nx\n" else none, fun _ => none⟩
        ⟨"/f", "x", some "y"⟩).2.fs "/f" = some "x\nx\n" := by
  refine ⟨rfl, by decide, rfl⟩

/-- C2 amended: for every file containing at least two occurrences of
`to_replace`, `StringReplace` fails with an `Unknown`-coded status (message
"Multiple matches found ...") and the file contents and history entry are
unchanged; with zero occurrences it fails with an `Unknown`-coded status
(message "No match found ...") and likewise leaves everything unchanged. -/
theorem C2_replace_uniqueness (st : Server.ServerState) (req : Server.StringReplaceRequest)
    (content : String) (habs : Server.is_absolute req.path = true)
    (hfs : st.fs req.path = some content) :
    (2 ≤ Server.countOccs req.to_replace.data content.data →
      Server.rpcResult (Server.string_replace st req).1 =
        Except.error ⟨Server.Code.unknown,
          "Multiple matches found to `to_replace`, a unique match is necessary"⟩ ∧
      (Server.string_replace st req).2 = st) ∧
    (Server.countOccs req.to_replace.data content.data = 0 →
      Server.rpcResult (Server.string_replace st req).1 =
        Except.error ⟨Server.Code.unknown, "No match found to `to_replace` for replacement"⟩ ∧
      (Server.string_replace st req).2 = st) := by
  constructor
  · intro h2
    obtain ⟨a, b, hab, hsec⟩ :=
      Server.two_occs_hasSecond req.to_replace.data content.data h2
    constructor <;>
      simp [Server.string_replace, Server.validate_path, habs, Server.readFile, hfs,
        hab, hsec, Server.rpcResult, Server.to_status, Except.mapError]
  · intro h0
    have hnone := (Server.countOccs_eq_zero_iff _ _).1 h0
    constructor <;>
      simp [Server.string_replace, Server.validate_path, habs, Server.readFile, hfs,
        hnone, Server.rpcResult, Server.to_status, Except.mapError]

/-- Witness for C2: the two-occurrence file of the spec's scenario (c) and a
missing needle. -/
theorem C2_replace_uniqueness_witness :
    Server.rpcResult (Server.string_replace
        ⟨fun p => if p = "/g" then some "a b a" else none, fun _ => none⟩
        ⟨"/g", "a", none⟩).1 =
      Except.error ⟨Server.Code.unknown,
        "Multiple matches found to `to_replace`, a unique match is necessary"⟩ ∧
    Server.rpcResult (Server.string_replace
        ⟨fun p => if p = "/g" then some "a b a" else none, fun _ => none⟩
        ⟨"/g", "zzz", none⟩).1 =
      Except.error ⟨Server.Code.unknown, "No match found to `to_replace` for replacement"⟩ :=
  ⟨((C2_replace_uniqueness _ ⟨"/g", "a", none⟩ "a b a" (by decide) rfl).1
      (by simp [Server.countOccs, Server.leadsWith])).1,
   ((C2_replace_uniqueness _ ⟨"/g", "zzz", none⟩ "a b a" (by decide) rfl).2
      (by simp [Server.countOccs, Server.leadsWith])).1⟩

end ClaimC2

namespace Server

/-- Splitting on newlines never yields an empty list of pieces. -/
theorem splitNl_ne_nil (s : List Char) : splitNl s ≠ [] := by
  induction s with
  | nil => simp [splitNl]
  | cons c cs ih =>
    by_cases h : c = '\n'
    · simp [splitNl, h]
    · simp only [splitNl, h, if_false]
      cases hcs : splitNl cs with
      | nil => simp
      | cons p ps => simp

/-- Unfolding `splitNl` at a newline. -/
theorem splitNl_cons_nl (rest : List Char) : splitNl ('\n' :: rest) = [] :: splitNl rest := by
  simp [splitNl]

/-- Unfolding `splitNl` at a non-newline character. -/
theorem splitNl_cons_ne (c : Char) (rest : List Char) (h : c ≠ '\n') (p : List Char)
    (ps : List (List Char)) (hr : splitNl rest = p :: ps) :
    splitNl (c :: rest) = (c :: p) :: ps := by
  simp [splitNl, h, hr]

/-- Splitting distributes over a newline join: the pieces of
`xs ++ "\n" ++ ys` are the pieces of `xs` followed by the pieces of
`ys`. -/
theorem splitNl_append_nl (xs ys : List Char) :
    splitNl (xs ++ '\n' :: ys) = splitNl xs ++ splitNl ys := by
  induction xs with
  | nil => simp [splitNl_cons_nl, splitNl]
  | cons x xs ih =>
    by_cases h : x = '\n'
    · subst h
      simp [List.cons_append, splitNl_cons_nl, ih]
    · obtain ⟨p, ps, hp⟩ : ∃ p ps, splitNl xs = p :: ps := by
        cases hx : splitNl xs with
        | nil => exact absurd hx (splitNl_ne_nil xs)
        | cons p ps => exact ⟨p, ps, rfl⟩
      rw [List.cons_append,
        splitNl_cons_ne x _ h p (ps ++ splitNl ys) (by rw [ih, hp]; simp),
        splitNl_cons_ne x xs h p ps hp]
      simp

/-- The `insert` split fails exactly when the content has fewer than `k`
newlines (the `advance_by` error of the source). -/
theorem findInsertSplit_none_iff (s : List Char) :
    ∀ k, findInsertSplit k s = none ↔ s.count '\n' < k := by
  induction s with
  | nil =>
    intro k
    cases k <;> simp [findInsertSplit]
  | cons c cs ih =>
    intro k
    by_cases h : c = '\n'
    · subst h
      cases k with
      | zero => simp [findInsertSplit]
      | succ k => simp [findInsertSplit, ih k]; try omega
    · cases k with
      | zero => simp [findInsertSplit, h, ih 0]
      | succ k => simp [findInsertSplit, h, ih (k + 1), List.count_cons, h]

/-- The split returned by `findInsertSplit` cuts the content so that
inserting `"\n" ++ t` there splices, at the line level, the lines of `t`
right after the first `k + 1` lines. -/
theorem findInsertSplit_splitNl (s : List Char) :
    ∀ k a b, findInsertSplit k s = some (a, b) → ∀ t : List Char,
      splitNl (a ++ '\n' :: t ++ b) =
        (splitNl s).take (k + 1) ++ splitNl t ++ (splitNl s).drop (k + 1) := by
  induction s with
  | nil =>
    intro k a b hs t
    cases k with
    | zero =>
      simp [findInsertSplit] at hs
      obtain ⟨rfl, rfl⟩ := hs
      simp [splitNl, splitNl_cons_nl]
    | succ k => simp [findInsertSplit] at hs
  | cons c cs ih =>
    intro k a b hs t
    by_cases h : c = '\n'
    · subst h
      cases k with
      | zero =>
        simp [findInsertSplit] at hs
        obtain ⟨rfl, rfl⟩ := hs
        rw [splitNl_cons_nl cs]
        simp only [List.nil_append]
        rw [show '\n' :: t ++ '\n' :: cs = '\n' :: (t ++ '\n' :: cs) from rfl,
          splitNl_cons_nl, splitNl_append_nl]
        simp
      | succ k =>
        simp [findInsertSplit] at hs
        obtain ⟨a2, ha2, ha⟩ := hs
        subst ha
        rw [splitNl_cons_nl cs]
        simp only [List.cons_append]
        rw [splitNl_cons_nl (a2 ++ '\n' :: t ++ b), ih k a2 b ha2 t]
        simp
    · obtain ⟨p, ps, hp⟩ : ∃ p ps, splitNl cs = p :: ps := by
        cases hx : splitNl cs with
        | nil => exact absurd hx (splitNl_ne_nil cs)
        | cons p ps => exact ⟨p, ps, rfl⟩
      cases k with
      | zero =>
        simp [findInsertSplit, h] at hs
        obtain ⟨a2, ha2, ha⟩ := hs
        subst ha
        have hIH := ih 0 a2 b ha2 t
        rw [hp] at hIH
        simp only [zero_add, List.take_succ_cons, List.take_zero, List.drop_succ_cons,
          List.drop_zero, List.append_nil, List.singleton_append, List.cons_append,
          List.nil_append] at hIH
        simp only [List.cons_append]
        rw [splitNl_cons_ne c _ h p (splitNl t ++ ps) hIH,
          splitNl_cons_ne c cs h p ps hp]
        simp
      | succ k =>
        simp [findInsertSplit, h] at hs
        obtain ⟨a2, ha2, ha⟩ := hs
        subst ha
        have hIH := ih (k + 1) a2 b ha2 t
        rw [hp] at hIH
        simp only [List.take_succ_cons, List.drop_succ_cons, List.cons_append] at hIH
        simp only [List.cons_append]
        rw [splitNl_cons_ne c _ h p _ hIH,
          splitNl_cons_ne c cs h p ps hp]
        simp

/-- The two parts returned by `findInsertSplit` rejoin to the content. -/
theorem findInsertSplit_append (s : List Char) :
    ∀ k a b, findInsertSplit k s = some (a, b) → s = a ++ b := by
  induction s with
  | nil =>
    intro k a b hs
    cases k with
    | zero =>
      simp [findInsertSplit] at hs
      obtain ⟨rfl, rfl⟩ := hs
      simp
    | succ k => simp [findInsertSplit] at hs
  | cons c cs ih =>
    intro k a b hs
    by_cases h : c = '\n'
    · subst h
      cases k with
      | zero =>
        simp [findInsertSplit] at hs
        obtain ⟨rfl, rfl⟩ := hs
        simp
      | succ k =>
        simp [findInsertSplit] at hs
        obtain ⟨a2, ha2, ha⟩ := hs
        subst ha
        simp [List.cons_append, ih k a2 b ha2]
    · cases k with
      | zero =>
        simp [findInsertSplit, h] at hs
        obtain ⟨a2, ha2, ha⟩ := hs
        subst ha
        simp [List.cons_append, ih 0 a2 b ha2]
      | succ k =>
        simp [findInsertSplit, h] at hs
        obtain ⟨a2, ha2, ha⟩ := hs
        subst ha
        simp [List.cons_append, ih (k + 1) a2 b ha2]

/-- On single-byte (ASCII) content the byte length equals the character
count. -/
theorem utf8Len_ascii (s : List Char) (h : ∀ c ∈ s, c.utf8Size = 1) :
    utf8Len s = s.length := by
  induction s with
  | nil => simp [utf8Len]
  | cons c cs ih =>
    have hc := h c (by simp)
    have hcs : ∀ x ∈ cs, x.utf8Size = 1 := fun x hx => h x (by simp [hx])
    have := ih hcs
    simp only [utf8Len, List.map_cons, List.sum_cons, List.length_cons, hc]
    simp only [utf8Len] at this
    omega

/-- On single-byte (ASCII) content a byte offset within the string is a
character boundary, and `byteSplit` cuts at the same place a character
split would. -/
theorem byteSplit_ascii (s : List Char) (h : ∀ c ∈ s, c.utf8Size = 1) :
    ∀ n, n ≤ s.length → byteSplit n s = some (s.take n, s.drop n) := by
  induction s with
  | nil =>
    intro n hn
    have : n = 0 := Nat.le_zero.1 hn
    subst this
    simp [byteSplit]
  | cons c cs ih =>
    intro n hn
    cases n with
    | zero => simp [byteSplit]
    | succ m =>
      have hc := h c (by simp)
      have hcs : ∀ x ∈ cs, x.utf8Size = 1 := fun x hx => h x (by simp [hx])
      have hm : m ≤ cs.length := by simpa using hn
      simp [byteSplit, hc, ih hcs m hm]

end Server

section ClaimC3

/-- C3 counterexample, three facts against the claim as stated: (i) on the
file "a\nb", `Insert` with `line_number = 0` puts "X" after the first line
(lines become ["a", "X", "b"]), not before the first line; (ii) on the same
1-newline file, `Insert` with `line_number = 2` succeeds although the claim
requires `InvalidArgument` for every line_number strictly greater than the
newline count; (iii) on a 3-line file, `Insert(path, 99, "zz")` fails with
code `Unknown`, not `InvalidArgument`. -/
theorem C3_counterexample :
    ((Server.insert ⟨fun p => if p = "/f" then some "a\nb" else none, fun _ => none⟩
        ⟨"/f", 0, "X"⟩).2.fs "/f" = some "a\nX\nb" ∧
      Server.strSplitNl "a\nX\nb" = ["a", "X", "b"]) ∧
    (Server.insert ⟨fun p => if p = "/f" then some "a\nb" else none, fun _ => none⟩
        ⟨"/f", 2, "X"⟩).1 = Except.ok ⟨1, ["a", "b", "X"]⟩ ∧
    (Server.rpcResult (Server.insert
        ⟨fun p => if p = "/g" then some "one\ntwo\nthree" else none, fun _ => none⟩
        ⟨"/g", 99, "zz"⟩).1 =
      Except.error ⟨Server.Code.unknown, "There are only 3 lines in /g"⟩ ∧
      Server.Code.unknown ≠ Server.Code.invalidArgument) := by
  exact ⟨⟨rfl, rfl⟩, rfl, rfl, by decide⟩

/-- C3 amended: `Insert` targets newline number `max(line_number, 1)` — so
`line_number = 0` behaves like `1`, putting the text after the first line,
and when that newline does not exist (`line_number = newline count + 1`)
the text is appended at the end.  The source passes the newline's
**character ordinal** to the **byte-indexed** `insert_str`, so the clean
splice holds on single-byte (ASCII) content: there the new file, at the
line level, is the first `max(line_number, 1)` lines, then the lines of
`text`, then the remaining lines.  (On multi-byte content the byte offset
lands earlier in the string or panics off a character boundary — third
conjunct: inserting after line 1 of the file "é\nb" panics, nothing
written.)  For every `line_number` strictly greater than the newline count
plus one the call returns an `Unknown`-coded error ("There are only N
lines in ...") without modifying anything; in particular
`Insert(path, 99, "zz")` on a 3-line file returns that `Unknown`-coded
error. -/
theorem C3_insert_semantics (st : Server.ServerState) (req : Server.InsertRequest)
    (content : String) (habs : Server.is_absolute req.path = true)
    (hfs : st.fs req.path = some content) :
    (content.data.count '\n' + 1 < req.line_number →
      Server.rpcResult (Server.insert st req).1 =
        Except.error ⟨Server.Code.unknown,
          "There are only " ++ toString (content.data.count '\n' + 1) ++
            " lines in " ++ req.path⟩ ∧
      (Server.insert st req).2 = st) ∧
    (req.line_number ≤ content.data.count '\n' + 1 →
      (∀ c ∈ content.data, c.utf8Size = 1) →
      ∃ snip c', (Server.insert st req).1 = Except.ok snip ∧
        (Server.insert st req).2.fs req.path = some c' ∧
        Server.strSplitNl c' =
          (Server.strSplitNl content).take (max req.line_number 1) ++
            Server.strSplitNl req.line ++
            (Server.strSplitNl content).drop (max req.line_number 1)) ∧
    ((Server.insert ⟨fun p => if p = "/m" then some "é\nb" else none, fun _ => none⟩
        ⟨"/m", 1, "X"⟩).1 =
      Except.error "panicked at byte index not on a char boundary" ∧
      (Server.insert ⟨fun p => if p = "/m" then some "é\nb" else none, fun _ => none⟩
        ⟨"/m", 1, "X"⟩).2.fs "/m" = some "é\nb") := by
  refine ⟨?_, ?_, rfl, rfl⟩
  · intro hgt
    have hnone : Server.findInsertSplit (req.line_number - 1) content.data = none := by
      rw [Server.findInsertSplit_none_iff]
      omega
    constructor <;>
      simp [Server.insert, Server.validate_path, habs, Server.readFile, hfs, hnone,
        Server.rpcResult, Server.to_status, Except.mapError]
  · intro hle hascii
    obtain ⟨⟨a, b⟩, hsplit⟩ :
        ∃ pr, Server.findInsertSplit (req.line_number - 1) content.data = some pr := by
      have : ¬ Server.findInsertSplit (req.line_number - 1) content.data = none := by
        rw [Server.findInsertSplit_none_iff]
        omega
      exact Option.ne_none_iff_exists'.1 this
    have hab : content.data = a ++ b :=
      Server.findInsertSplit_append content.data (req.line_number - 1) a b hsplit
    have hk : req.line_number - 1 + 1 = max req.line_number 1 := by omega
    cases b with
    | nil =>
      have ha : a = content.data := by simpa using hab.symm
      subst ha
      have hbs : Server.byteSplit (Server.insertIndex content.data content.data [])
          content.data = some (content.data, []) := by
        have hsp := Server.byteSplit_ascii content.data hascii content.data.length le_rfl
        rw [List.take_length, List.drop_length] at hsp
        simpa [Server.insertIndex, Server.utf8Len_ascii content.data hascii] using hsp
      refine ⟨Server.Snippet.new (String.mk (content.data ++ ('\n' :: req.line.data) ++ []))
          (some (req.line_number - 1,
            req.line_number - 1 + ('\n' :: req.line.data).count '\n' + 1)),
        String.mk (content.data ++ ('\n' :: req.line.data) ++ []), ?_, ?_, ?_⟩
      · simp [Server.insert, Server.validate_path, habs, Server.readFile, hfs, hsplit, hbs]
      · simp [Server.insert, Server.validate_path, habs, Server.readFile, hfs, hsplit,
          hbs, Server.write]
      · have hchar := Server.findInsertSplit_splitNl content.data
          (req.line_number - 1) content.data [] hsplit req.line.data
        simp only [Server.strSplitNl]
        rw [hchar, hk]
        simp [List.map_take, List.map_drop]
    | cons x xs =>
      have hlen : a.length ≤ content.data.length := by
        rw [hab]
        simp
      have hbs : Server.byteSplit (Server.insertIndex content.data a (x :: xs))
          content.data = some (a, x :: xs) := by
        have hsp := Server.byteSplit_ascii content.data hascii a.length hlen
        rw [hab] at hsp ⊢
        simpa [Server.insertIndex, List.take_left, List.drop_left] using hsp
      refine ⟨Server.Snippet.new (String.mk (a ++ ('\n' :: req.line.data) ++ (x :: xs)))
          (some (req.line_number - 1,
            req.line_number - 1 + ('\n' :: req.line.data).count '\n' + 1)),
        String.mk (a ++ ('\n' :: req.line.data) ++ (x :: xs)), ?_, ?_, ?_⟩
      · simp [Server.insert, Server.validate_path, habs, Server.readFile, hfs, hsplit, hbs]
      · simp [Server.insert, Server.validate_path, habs, Server.readFile, hfs, hsplit,
          hbs, Server.write]
      · have hchar := Server.findInsertSplit_splitNl content.data
          (req.line_number - 1) a (x :: xs) hsplit req.line.data
        simp only [Server.strSplitNl]
        rw [hchar, hk]
        simp [List.map_take, List.map_drop]

end ClaimC3

/-- Witness for C3: a 2-line file and an out-of-range line number. -/
theorem C3_insert_semantics_witness :
    Server.rpcResult (Server.insert
        ⟨fun p => if p = "/w" then some "l1\nl2" else none, fun _ => none⟩
        ⟨"/w", 5, "X"⟩).1 =
      Except.error ⟨Server.Code.unknown, "There are only 2 lines in /w"⟩ ∧
    (Server.insert ⟨fun p => if p = "/w" then some "l1\nl2" else none, fun _ => none⟩
        ⟨"/w", 5, "X"⟩).2 =
      ⟨fun p => if p = "/w" then some "l1\nl2" else none, fun _ => none⟩ :=
  (C3_insert_semantics ⟨fun p => if p = "/w" then some "l1\nl2" else none, fun _ => none⟩
    ⟨"/w", 5, "X"⟩ "l1\nl2" (by decide) rfl).1 (by decide)

namespace Wire

/-- Folding a run of `partial_json` deltas just appends the fragments, in
order, to the buffer. -/
theorem anthPhaseB_deltas (parse : String → Option Json) (frags : List String) :
    ∀ (rest : List AnthEvent) (buf : String) (prev : ToolUse) (acc : List ToolUse),
      anthPhaseB parse (frags.map AnthEvent.deltaPartialJson ++ rest) buf prev acc =
        anthPhaseB parse rest (frags.foldl (fun r f => r ++ f) buf) prev acc := by
  induction frags with
  | nil => intro rest buf prev acc; rfl
  | cons f fs ih =>
    intro rest buf prev acc
    simp only [List.map_cons, List.cons_append, anthPhaseB, List.foldl_cons]
    exact ih rest (buf ++ f) prev acc

/-- Folding a run of OpenAI argument fragments likewise appends them to the
buffer. -/
theorem oaiToolCalls_frags (parse : String → Option Json) (frags : List String) :
    ∀ (rest : List OaiEvent) (prev : ToolUse) (buf : String) (acc : List ToolUse),
      oaiStreamToolCalls parse (frags.map OaiEvent.toolCallFrag ++ rest) prev buf acc =
        oaiStreamToolCalls parse rest prev (frags.foldl (fun r f => r ++ f) buf) acc := by
  induction frags with
  | nil => intro rest prev buf acc; rfl
  | cons f fs ih =>
    intro rest prev buf acc
    simp only [List.map_cons, List.cons_append, oaiStreamToolCalls, List.foldl_cons]
    exact ih rest prev (buf ++ f) acc

end Wire

/-- C7: for every JSON value `v`, if the stream delivers `v` split into any
sequence of string fragments — Anthropic `partial_json` deltas ended by
`content_block_stop`, or OpenAI tool-call argument fragments ended by
stream end — then the decoded `ToolUse` has `input = v` with `id` and
`name` set (and no output).  `parse` stands for `serde_json::from_str`; the
hypothesis says the concatenated fragments parse to `v`. -/
theorem C7_tool_args_round_trip (parse : String → Option Wire.Json) (v : Wire.Json)
    (frags : List String) (name id : String)
    (hparse : parse (String.join frags) = some v) :
    Wire.anthStreamResponse parse
        (Wire.AnthEvent.blockStartToolUse name id ::
          (frags.map Wire.AnthEvent.deltaPartialJson ++ [Wire.AnthEvent.blockStop])) =
      Except.ok ("", [{ name := name, id := id, input := v, output := none }]) ∧
    Wire.oaiStreamResponse parse
        (Wire.OaiEvent.toolCallNew name id ::
          (frags.map Wire.OaiEvent.toolCallFrag ++ [Wire.OaiEvent.done])) =
      Except.ok ("", [{ name := name, id := id, input := v, output := none }]) := by
  have hjoin : String.join frags = frags.foldl (fun r f => r ++ f) "" := rfl
  rw [hjoin] at hparse
  constructor
  · simp only [Wire.anthStreamResponse, Wire.anthPhaseA, bind, Except.bind]
    simp only [Wire.anthPhaseB_deltas]
    simp [Wire.anthPhaseB, hparse, Wire.newToolUse, Functor.map, Except.map]
    rfl
  · simp only [Wire.oaiStreamResponse, Wire.oaiPhaseA, bind, Except.bind]
    simp only [Wire.oaiToolCalls_frags]
    simp [Wire.oaiStreamToolCalls, hparse, Wire.newToolUse, Functor.map, Except.map]
    rfl

/-- Witness for C7: the value 42 delivered as the fragments "4", "2". -/
theorem C7_tool_args_round_trip_witness :
    Wire.anthStreamResponse
        (fun s => if s = "42" then some (Wire.Json.num 42) else none)
        (Wire.AnthEvent.blockStartToolUse "bash" "toolu_1" ::
          ([ "4", "2" ].map Wire.AnthEvent.deltaPartialJson ++ [Wire.AnthEvent.blockStop])) =
      Except.ok ("",
        [{ name := "bash", id := "toolu_1", input := Wire.Json.num 42, output := none }]) :=
  (C7_tool_args_round_trip (fun s => if s = "42" then some (Wire.Json.num 42) else none)
    (Wire.Json.num 42) ["4", "2"] "bash" "toolu_1" rfl).1

namespace Server

/-- Undoing right after a `write` on a path that already had a history
entry restores that entry's `latest` on disk and pops it back into the
entry. -/
theorem undo_write_restores (st : ServerState) (p c : String) (e : FileHistoryEntry)
    (habs : is_absolute p = true) (hh : st.file_history p = some e) :
    (undo_edit (write st p c) ⟨p⟩).1 = Except.ok (Snippet.new e.latest none) ∧
    (undo_edit (write st p c) ⟨p⟩).2.fs p = some e.latest ∧
    (undo_edit (write st p c) ⟨p⟩).2.file_history p = some ⟨e.latest, e.history⟩ := by
  refine ⟨?_, ?_, ?_⟩ <;>
    simp [undo_edit, validate_path, habs, write, hh]

/-- Popping the whole history: after as many undos as there are saved
states, the oldest recorded state is on disk with an empty stack, and one
more `UndoEdit` returns the `Unknown`-coded "Already at oldest change"
error, leaving the state untouched. -/
theorem undo_exhaustion (p : String) (habs : is_absolute p = true) :
    ∀ (h : List String) (st : ServerState) (l : String),
      st.file_history p = some ⟨l, h⟩ → st.fs p = some l →
      (iterUndo p h.length st).fs p = some (h.headD l) ∧
      (iterUndo p h.length st).file_history p = some ⟨h.headD l, []⟩ ∧
      rpcResult (undo_edit (iterUndo p h.length st) ⟨p⟩).1 =
        Except.error ⟨Code.unknown, "Already at oldest change"⟩ ∧
      (undo_edit (iterUndo p h.length st) ⟨p⟩).2 = iterUndo p h.length st := by
  intro h
  induction h using List.reverseRecOn with
  | nil =>
    intro st l hh hf
    refine ⟨?_, ?_, ?_, ?_⟩ <;>
      simp [iterUndo, hf, hh, undo_edit, validate_path, habs, rpcResult, to_status,
        Except.mapError]
  | append_singleton h x ih =>
    intro st l hh hf
    have h1 : ((undo_edit st ⟨p⟩).2).file_history p = some ⟨x, h⟩ := by
      simp [undo_edit, validate_path, habs, hh]
    have h2 : ((undo_edit st ⟨p⟩).2).fs p = some x := by
      simp [undo_edit, validate_path, habs, hh]
    have hD : (h ++ [x]).headD l = h.headD x := by cases h <;> simp
    have hlen : (h ++ [x]).length = h.length + 1 := by simp
    rw [hlen, hD]
    rw [show iterUndo p (h.length + 1) st = iterUndo p h.length (undo_edit st ⟨p⟩).2 from rfl]
    exact ih (undo_edit st ⟨p⟩).2 x h1 h2

end Server

section ClaimC1

/-- C1 counterexample: `Create` a fresh file, then `UndoEdit`.  The undo
does not rewrite the path to its pre-create contents (the created file is
still on disk) and the error is coded `Unknown`, not `ResourceExhausted`:
create records no pre-state, and `to_status` codes every editor error
`Unknown`. -/
theorem C1_counterexample :
    (Server.create ⟨fun _ => none, fun _ => none⟩ ⟨"/a", "x"⟩).1 = Except.ok () ∧
    Server.rpcResult (Server.undo_edit
        (Server.create ⟨fun _ => none, fun _ => none⟩ ⟨"/a", "x"⟩).2 ⟨"/a"⟩).1 =
      Except.error ⟨Server.Code.unknown, "Already at oldest change"⟩ ∧
    (Server.undo_edit (Server.create ⟨fun _ => none, fun _ => none⟩ ⟨"/a", "x"⟩).2
        ⟨"/a"⟩).2.fs "/a" = some "x" ∧
    Server.Code.unknown ≠ Server.Code.resourceExhausted := by
  exact ⟨rfl, rfl, rfl, by decide⟩

/-- C1 amended: (a) for every successful `StringReplace` on a path whose
history entry exists and mirrors the on-disk contents, a subsequent
`UndoEdit` rewrites the path to exactly the contents it had immediately
before the operation; (b) likewise for `Insert`; (c) a successful `Create`
records no pre-state (the path was absent), so `UndoEdit` right after it
returns the `Unknown`-coded "Already at oldest change" error with the
created file left on disk; (d) repeatedly calling `UndoEdit` pops the whole
stack and eventually returns the `Unknown`-coded "Already at oldest change"
error (never `ResourceExhausted`) with the oldest recorded state left on
disk. -/
theorem C1_undo_inverse :
    (∀ (st : Server.ServerState) (req : Server.StringReplaceRequest) (content : String)
        (e : Server.FileHistoryEntry) (snip : Server.Snippet),
      Server.is_absolute req.path = true → st.fs req.path = some content →
      st.file_history req.path = some e → e.latest = content →
      (Server.string_replace st req).1 = Except.ok snip →
      (Server.undo_edit (Server.string_replace st req).2 ⟨req.path⟩).1 =
        Except.ok (Server.Snippet.new content none) ∧
      (Server.undo_edit (Server.string_replace st req).2 ⟨req.path⟩).2.fs req.path =
        some content) ∧
    (∀ (st : Server.ServerState) (req : Server.InsertRequest) (content : String)
        (e : Server.FileHistoryEntry) (snip : Server.Snippet),
      Server.is_absolute req.path = true → st.fs req.path = some content →
      st.file_history req.path = some e → e.latest = content →
      (Server.insert st req).1 = Except.ok snip →
      (Server.undo_edit (Server.insert st req).2 ⟨req.path⟩).1 =
        Except.ok (Server.Snippet.new content none) ∧
      (Server.undo_edit (Server.insert st req).2 ⟨req.path⟩).2.fs req.path = some content) ∧
    (∀ (st : Server.ServerState) (req : Server.CreateRequest),
      Server.is_absolute req.path = true → st.fs req.path = none →
      st.file_history req.path = none →
      (Server.create st req).1 = Except.ok () ∧
      Server.rpcResult (Server.undo_edit (Server.create st req).2 ⟨req.path⟩).1 =
        Except.error ⟨Server.Code.unknown, "Already at oldest change"⟩ ∧
      (Server.undo_edit (Server.create st req).2 ⟨req.path⟩).2.fs req.path =
        some req.file_text) ∧
    (∀ (p : String), Server.is_absolute p = true →
      ∀ (h : List String) (st : Server.ServerState) (l : String),
        st.file_history p = some ⟨l, h⟩ → st.fs p = some l →
        (Server.iterUndo p h.length st).fs p = some (h.headD l) ∧
        (Server.iterUndo p h.length st).file_history p = some ⟨h.headD l, []⟩ ∧
        Server.rpcResult
            (Server.undo_edit (Server.iterUndo p h.length st) ⟨p⟩).1 =
          Except.error ⟨Server.Code.unknown, "Already at oldest change"⟩ ∧
        (Server.undo_edit (Server.iterUndo p h.length st) ⟨p⟩).2 =
          Server.iterUndo p h.length st) := by
  refine ⟨?_, ?_, ?_, fun p habs => Server.undo_exhaustion p habs⟩
  · intro st req content e snip habs hfs hh hlat hsucc
    cases hso : Server.splitFirstOcc req.to_replace.data content.data with
    | none =>
      simp [Server.string_replace, Server.validate_path, habs, Server.readFile, hfs,
        hso] at hsucc
    | some pr =>
      obtain ⟨a, b⟩ := pr
      by_cases hsec : Server.hasSecondOcc req.to_replace.data content.data = true
      · simp [Server.string_replace, Server.validate_path, habs, Server.readFile, hfs,
          hso, hsec] at hsucc
      · have hb : Server.hasSecondOcc req.to_replace.data content.data = false := by
          simpa using hsec
        have hst2 : (Server.string_replace st req).2 =
            Server.write st req.path
              (String.mk (a ++ (req.replacement.getD "").data ++ b)) := by
          simp [Server.string_replace, Server.validate_path, habs, Server.readFile, hfs,
            hso, hb]
        rw [hst2]
        obtain ⟨h1, h2, h3⟩ := Server.undo_write_restores st req.path
          (String.mk (a ++ (req.replacement.getD "").data ++ b)) e habs hh
        rw [hlat] at h1 h2
        exact ⟨h1, h2⟩
  · intro st req content e snip habs hfs hh hlat hsucc
    cases hsp : Server.findInsertSplit (req.line_number - 1) content.data with
    | none =>
      simp [Server.insert, Server.validate_path, habs, Server.readFile, hfs,
        hsp] at hsucc
    | some pr =>
      obtain ⟨a, b⟩ := pr
      cases hbs : Server.byteSplit (Server.insertIndex content.data a b) content.data with
      | none =>
        simp [Server.insert, Server.validate_path, habs, Server.readFile, hfs, hsp,
          hbs] at hsucc
      | some pr2 =>
        obtain ⟨ba, bb⟩ := pr2
        have hst2 : (Server.insert st req).2 =
            Server.write st req.path (String.mk (ba ++ ('\n' :: req.line.data) ++ bb)) := by
          simp [Server.insert, Server.validate_path, habs, Server.readFile, hfs, hsp, hbs]
        rw [hst2]
        obtain ⟨h1, h2, h3⟩ := Server.undo_write_restores st req.path
          (String.mk (ba ++ ('\n' :: req.line.data) ++ bb)) e habs hh
        rw [hlat] at h1 h2
        exact ⟨h1, h2⟩
  · intro st req habs hfs hh
    have hc : Server.create st req = (Except.ok (), Server.write st req.path req.file_text) := by
      simp [Server.create, Server.validate_path, habs, hfs]
    refine ⟨by rw [hc], ?_, ?_⟩ <;>
      simp [hc, Server.undo_edit, Server.validate_path, habs, Server.write, hh,
        Server.rpcResult, Server.to_status, Except.mapError]

end ClaimC1

/-- Witness for C1: a fresh create followed by an undo that reports
"Already at oldest change". -/
theorem C1_undo_inverse_witness :
    Server.rpcResult (Server.undo_edit
        (Server.create ⟨fun _ => none, fun _ => none⟩ ⟨"/c1w", "x"⟩).2 ⟨"/c1w"⟩).1 =
      Except.error ⟨Server.Code.unknown, "Already at oldest change"⟩ :=
  (C1_undo_inverse.2.2.1 ⟨fun _ => none, fun _ => none⟩ ⟨"/c1w", "x"⟩
    (by decide) rfl rfl).2.1

section ClaimC10

/-- C10 counterexample: the empty-history error right after a `Create` is
coded `Unknown`, not `ResourceExhausted` as the claim's parenthetical
states. -/
theorem C10_counterexample :
    Server.rpcResult (Server.undo_edit
        (Server.create ⟨fun _ => none, fun _ => none⟩ ⟨"/b.txt", "y"⟩).2 ⟨"/b.txt"⟩).1 =
      Except.error ⟨Server.Code.unknown, "Already at oldest change"⟩ ∧
    Server.Code.unknown ≠ Server.Code.resourceExhausted := by
  exact ⟨rfl, by decide⟩

/-- C10 amended, the history-mirror invariant: (1) a successful `Create` —
on a state where any history entry for the path is mirrored by a file on
disk, as holds when no external writer interferes — leaves the entry
`{latest = file_text, history = []}` with `latest` equal to the contents on
disk; (2)/(3) a successful `StringReplace`/`Insert` on a tracked path
pushes the previous `latest` onto the stack and leaves `latest` equal to
the new on-disk contents; (4) a successful `UndoEdit` leaves an entry whose
`latest` equals the on-disk contents; (5) immediately after a `Create` on
an untracked path, `UndoEdit` fails with the `Unknown`-coded (not
`ResourceExhausted`) "Already at oldest change" error. -/
theorem C10_history_mirror :
    (∀ (st : Server.ServerState) (req : Server.CreateRequest),
      Server.is_absolute req.path = true →
      (∀ e, st.file_history req.path = some e → (st.fs req.path).isSome) →
      (Server.create st req).1 = Except.ok () →
      (Server.create st req).2.fs req.path = some req.file_text ∧
      (Server.create st req).2.file_history req.path = some ⟨req.file_text, []⟩) ∧
    (∀ (st : Server.ServerState) (req : Server.StringReplaceRequest)
        (e : Server.FileHistoryEntry) (snip : Server.Snippet),
      st.file_history req.path = some e →
      (Server.string_replace st req).1 = Except.ok snip →
      ∃ c', (Server.string_replace st req).2.fs req.path = some c' ∧
        (Server.string_replace st req).2.file_history req.path =
          some ⟨c', e.history ++ [e.latest]⟩) ∧
    (∀ (st : Server.ServerState) (req : Server.InsertRequest)
        (e : Server.FileHistoryEntry) (snip : Server.Snippet),
      st.file_history req.path = some e →
      (Server.insert st req).1 = Except.ok snip →
      ∃ c', (Server.insert st req).2.fs req.path = some c' ∧
        (Server.insert st req).2.file_history req.path =
          some ⟨c', e.history ++ [e.latest]⟩) ∧
    (∀ (st : Server.ServerState) (req : Server.UndoEditRequest) (snip : Server.Snippet),
      (Server.undo_edit st req).1 = Except.ok snip →
      ∃ v hist2, (Server.undo_edit st req).2.fs req.path = some v ∧
        (Server.undo_edit st req).2.file_history req.path = some ⟨v, hist2⟩) ∧
    (∀ (st : Server.ServerState) (req : Server.CreateRequest),
      Server.is_absolute req.path = true → st.file_history req.path = none →
      (Server.create st req).1 = Except.ok () →
      Server.rpcResult (Server.undo_edit (Server.create st req).2 ⟨req.path⟩).1 =
        Except.error ⟨Server.Code.unknown, "Already at oldest change"⟩) := by
  refine ⟨?_, ?_, ?_, ?_, ?_⟩
  · intro st req habs hcoh hsucc
    cases hfs : st.fs req.path with
    | some c => simp [Server.create, Server.validate_path, habs, hfs] at hsucc
    | none =>
      have hh : st.file_history req.path = none := by
        cases hh2 : st.file_history req.path with
        | none => rfl
        | some e =>
          have := hcoh e hh2
          rw [hfs] at this
          simp at this
      constructor <;> simp [Server.create, Server.validate_path, habs, hfs, Server.write, hh]
  · intro st req e snip hh hsucc
    by_cases habs : Server.is_absolute req.path = true
    · cases hfs : st.fs req.path with
      | none =>
        simp [Server.string_replace, Server.validate_path, habs, Server.readFile,
          hfs] at hsucc
      | some content =>
        cases hso : Server.splitFirstOcc req.to_replace.data content.data with
        | none =>
          simp [Server.string_replace, Server.validate_path, habs, Server.readFile, hfs,
            hso] at hsucc
        | some pr =>
          obtain ⟨a, b⟩ := pr
          by_cases hsec : Server.hasSecondOcc req.to_replace.data content.data = true
          · simp [Server.string_replace, Server.validate_path, habs, Server.readFile,
              hfs, hso, hsec] at hsucc
          · have hb : Server.hasSecondOcc req.to_replace.data content.data = false := by
              simpa using hsec
            refine ⟨String.mk (a ++ (req.replacement.getD "").data ++ b), ?_, ?_⟩ <;>
              simp [Server.string_replace, Server.validate_path, habs, Server.readFile,
                hfs, hso, hb, Server.write, hh]
    · have habs' : Server.is_absolute req.path = false := by simpa using habs
      simp [Server.string_replace, Server.validate_path, habs'] at hsucc
  · intro st req e snip hh hsucc
    by_cases habs : Server.is_absolute req.path = true
    · cases hfs : st.fs req.path with
      | none =>
        simp [Server.insert, Server.validate_path, habs, Server.readFile, hfs] at hsucc
      | some content =>
        cases hsp : Server.findInsertSplit (req.line_number - 1) content.data with
        | none =>
          simp [Server.insert, Server.validate_path, habs, Server.readFile, hfs,
            hsp] at hsucc
        | some pr =>
          obtain ⟨a, b⟩ := pr
          cases hbs : Server.byteSplit (Server.insertIndex content.data a b)
              content.data with
          | none =>
            simp [Server.insert, Server.validate_path, habs, Server.readFile, hfs, hsp,
              hbs] at hsucc
          | some pr2 =>
            obtain ⟨ba, bb⟩ := pr2
            refine ⟨String.mk (ba ++ ('\n' :: req.line.data) ++ bb), ?_, ?_⟩ <;>
              simp [Server.insert, Server.validate_path, habs, Server.readFile, hfs, hsp,
                hbs, Server.write, hh]
    · have habs' : Server.is_absolute req.path = false := by simpa using habs
      simp [Server.insert, Server.validate_path, habs'] at hsucc
  · intro st req snip hsucc
    by_cases habs : Server.is_absolute req.path = true
    · cases hh : st.file_history req.path with
      | none => simp [Server.undo_edit, Server.validate_path, habs, hh] at hsucc
      | some e =>
        cases hl : e.history.getLast? with
        | none => simp [Server.undo_edit, Server.validate_path, habs, hh, hl] at hsucc
        | some v =>
          refine ⟨v, e.history.dropLast, ?_, ?_⟩ <;>
            simp [Server.undo_edit, Server.validate_path, habs, hh, hl]
    · have habs' : Server.is_absolute req.path = false := by simpa using habs
      simp [Server.undo_edit, Server.validate_path, habs'] at hsucc
  · intro st req habs hh hsucc
    cases hfs : st.fs req.path with
    | some c => simp [Server.create, Server.validate_path, habs, hfs] at hsucc
    | none =>
      simp [Server.create, Server.validate_path, habs, hfs, Server.write, hh,
        Server.undo_edit, Server.rpcResult, Server.to_status, Except.mapError]

end ClaimC10

/-- Witness for C10: a fresh create initializes the entry with an empty
stack and `latest` equal to the written text. -/
theorem C10_history_mirror_witness :
    (Server.create ⟨fun _ => none, fun _ => none⟩ ⟨"/c10w", "z"⟩).2.file_history "/c10w" =
      some ⟨"z", []⟩ :=
  (C10_history_mirror.1 ⟨fun _ => none, fun _ => none⟩ ⟨"/c10w", "z"⟩ (by decide)
    (fun e he => by simp at he) rfl).2

end Theorems
